import Mathlib

/-!
# Verification of the link-analyzer core

Shallow embedding of the link-analyzer scripts
(`skills/link-analyzer/scripts/link_graph.py` and
`skills/link-analyzer/scripts/http_checker.py`) together with proofs of the
stated properties of the URL normalizer, the link-graph metrics calculator,
the classifier, the external-link validator and the false-positive filter.
-/

namespace LinkAnalyzer

/-! ## URL Normalizer (`LinkGraphAnalyzer.normalize_url`) -/

/-- `url.split(c)[0]`: everything before the first occurrence of `c`
(the whole string when `c` is absent). -/
def stripAfter (c : Char) (l : List Char) : List Char :=
  l.takeWhile (fun x => x ≠ c)

/-- One hexadecimal digit, as accepted by `urllib.parse.unquote`. -/
def isHexChar (c : Char) : Bool :=
  c.isDigit || ('a' ≤ c && c ≤ 'f') || ('A' ≤ c && c ≤ 'F')

/-- Numeric value of a hexadecimal digit. -/
def hexVal (c : Char) : Nat :=
  if c.isDigit then c.toNat - '0'.toNat
  else if 'a' ≤ c && c ≤ 'f' then c.toNat - 'a'.toNat + 10
  else c.toNat - 'A'.toNat + 10

/-- `urllib.parse.unquote`, at the character level: each `%xy` escape with two
hexadecimal digits becomes the character of the byte value `0x…xy`; an
invalid escape is kept verbatim (the Python function never raises, so the
`try`/`except` around it in `normalize_url` is inert). The decoder makes a
single left-to-right pass and never rescans its own output. -/
def unquoteChars : List Char → List Char
  | [] => []
  | [c] => [c]
  | [c, d] => [c, d]
  | c :: a :: b :: rest =>
    if c = '%' && isHexChar a && isHexChar b then
      Char.ofNat (16 * hexVal a + hexVal b) :: unquoteChars rest
    else
      c :: unquoteChars (a :: b :: rest)

/-- `if not url.startswith('/'): url = '/' + url`. -/
def ensureLeadingSlash (l : List Char) : List Char :=
  if l.head? = some '/' then l else '/' :: l

/-- `url.split('/')[-1]`: the suffix after the last `/`. -/
def lastSegment (l : List Char) : List Char :=
  (l.reverse.takeWhile (fun x => x ≠ '/')).reverse

/-- `if not url.endswith('/') and '.' not in url.split('/')[-1]: url += '/'`. -/
def ensureTrailingSlash (l : List Char) : List Char :=
  if l.getLast? = some '/' then l
  else if '.' ∈ lastSegment l then l
  else l ++ ['/']

/-- `LinkGraphAnalyzer.normalize_url`, character-list form: strip the
fragment, strip the query string, percent-decode, ensure a leading slash,
ensure a trailing slash for extension-less final segments. -/
def normChars (l : List Char) : List Char :=
  ensureTrailingSlash (ensureLeadingSlash (unquoteChars
    (stripAfter '?' (stripAfter '#' l))))

/-- `LinkGraphAnalyzer.normalize_url` on strings. -/
def normalize_url (s : String) : String :=
  ⟨normChars s.data⟩

/-! ### Facts about the normalizer -/

theorem unquoteChars_of_no_percent : ∀ {l : List Char}, (∀ c ∈ l, c ≠ '%') →
    unquoteChars l = l
  | [], _ => rfl
  | [_], _ => rfl
  | [_, _], _ => rfl
  | c :: a :: b :: rest, h => by
    have hc : c ≠ '%' := h c (by simp)
    have hrest : ∀ x ∈ a :: b :: rest, x ≠ '%' := fun x hx => h x (by simp_all)
    have hcond : (c = '%' && isHexChar a && isHexChar b) = false := by
      simp [hc]
    rw [unquoteChars, hcond]
    simp only [Bool.false_eq_true, if_false]
    rw [unquoteChars_of_no_percent hrest]

theorem ensureLeadingSlash_head (l : List Char) :
    (ensureLeadingSlash l).head? = some '/' := by
  unfold ensureLeadingSlash
  split
  · assumption
  · rfl

theorem ensureTrailingSlash_head (l : List Char) (hl : l ≠ []) :
    (ensureTrailingSlash l).head? = l.head? := by
  unfold ensureTrailingSlash
  split
  · rfl
  · split
    · rfl
    · cases l with
      | nil => exact absurd rfl hl
      | cons x xs => rfl

theorem ensureTrailingSlash_of_last_slash (l : List Char)
    (h : l.getLast? = some '/') : ensureTrailingSlash l = l := by
  unfold ensureTrailingSlash
  rw [if_pos h]

theorem ensureTrailingSlash_idem (l : List Char) :
    ensureTrailingSlash (ensureTrailingSlash l) = ensureTrailingSlash l := by
  by_cases h1 : l.getLast? = some '/'
  · rw [ensureTrailingSlash_of_last_slash l h1, ensureTrailingSlash_of_last_slash l h1]
  · by_cases h2 : '.' ∈ lastSegment l
    · have he : ensureTrailingSlash l = l := by
        unfold ensureTrailingSlash
        rw [if_neg h1, if_pos h2]
      rw [he, he]
    · have he : ensureTrailingSlash l = l ++ ['/'] := by
        unfold ensureTrailingSlash
        rw [if_neg h1, if_neg h2]
      rw [he]
      apply ensureTrailingSlash_of_last_slash
      simp

theorem normChars_head (l : List Char) : (normChars l).head? = some '/' := by
  unfold normChars
  rw [ensureTrailingSlash_head, ensureLeadingSlash_head]
  intro hnil
  have := ensureLeadingSlash_head (unquoteChars (stripAfter '?' (stripAfter '#' l)))
  rw [hnil] at this
  exact Option.noConfusion this

/-- Claim C1, amended part: the normalizer is idempotent on every input whose
normalized form contains none of the characters `#`, `?`, `%` (the fragment
strip, query strip and percent-decode passes are then all inert on the second
run). -/
theorem normalize_idempotent_of_clean (s : String)
    (h : ∀ c ∈ (normalize_url s).data, c ≠ '#' ∧ c ≠ '?' ∧ c ≠ '%') :
    normalize_url (normalize_url s) = normalize_url s := by
  have hdata : (normalize_url s).data = normChars s.data := rfl
  rw [hdata] at h
  show (⟨normChars (normChars s.data)⟩ : String) = ⟨normChars s.data⟩
  congr 1
  have h1 : stripAfter '#' (normChars s.data) = normChars s.data := by
    apply List.takeWhile_eq_self_iff.mpr
    intro x hx
    simpa using (h x hx).1
  have h2 : stripAfter '?' (normChars s.data) = normChars s.data := by
    apply List.takeWhile_eq_self_iff.mpr
    intro x hx
    simpa using (h x hx).2.1
  have h3 : unquoteChars (normChars s.data) = normChars s.data :=
    unquoteChars_of_no_percent (fun c hc => (h c hc).2.2)
  have h4 : ensureLeadingSlash (normChars s.data) = normChars s.data := by
    unfold ensureLeadingSlash
    rw [if_pos (normChars_head s.data)]
  calc normChars (normChars s.data)
      = ensureTrailingSlash (ensureLeadingSlash (unquoteChars
          (stripAfter '?' (stripAfter '#' (normChars s.data))))) := rfl
    _ = ensureTrailingSlash (normChars s.data) := by rw [h1, h2, h3, h4]
    _ = normChars s.data := ensureTrailingSlash_idem _

/-- Claim C1, refuted as stated: the normalizer is not idempotent on the
input `"%2523"` named by the claim; the first pass yields `"/%23/"` and the
second pass decodes `%23` to `#` and then strips it as a fragment marker,
yielding `"/#/"`. -/
theorem normalize_not_idempotent_counterexample :
    normalize_url (normalize_url "%2523") ≠ normalize_url "%2523" := by
  decide

/-- Witness for `normalize_idempotent_of_clean` at the concrete input
`"/blog/post/"`, whose normalized form contains no `#`, `?` or `%`. -/
theorem normalize_idempotent_of_clean_witness :
    (∀ c ∈ (normalize_url "/blog/post/").data, c ≠ '#' ∧ c ≠ '?' ∧ c ≠ '%') ∧
      normalize_url (normalize_url "/blog/post/") = normalize_url "/blog/post/" :=
  ⟨by decide, normalize_idempotent_of_clean "/blog/post/" (by decide)⟩

/-! ## Link graph and metrics (`LinkGraphAnalyzer.calculate_metrics`)

The graph `self.link_graph` is a Python dict from a source page to its list
of outbound targets; it is modelled as an association list whose keys are
distinct, and `self.all_pages` as a list of distinct pages. -/

/-- `self.link_graph.get(page, [])`: the outbound target list of a page
(first-match lookup; Python dict keys are unique). -/
def outboundOf (g : List (String × List String)) (p : String) : List String :=
  match g with
  | [] => []
  | e :: g' => if p = e.1 then e.2 else outboundOf g' p

/-- The reverse index `inbound_from` built at the top of `calculate_metrics`:
iterating the graph items, each source is appended to `inbound_from[target]`
once per occurrence of the target in its outbound list. -/
def inboundSources (g : List (String × List String)) (t : String) : List String :=
  match g with
  | [] => []
  | e :: g' => List.replicate (e.2.count t) e.1 ++ inboundSources g' t

/-- Value of the Python float variable `ratio` before storing: a finite value
(modelled exactly as a rational) or `float('inf')`. -/
inductive PyFloat where
  | fin (q : ℚ)
  | inf
deriving DecidableEq

/-- Python `round` to the nearest integer, halves to even. -/
def roundHalfEven (x : ℚ) : ℤ :=
  let f := Rat.floor x
  if x - f < 1 / 2 then f
  else if (1 / 2 : ℚ) < x - f then f + 1
  else if f % 2 = 0 then f else f + 1

/-- Python `round(q, 2)`. -/
def pyRound2 (q : ℚ) : ℚ :=
  (roundHalfEven (q * 100) : ℚ) / 100

/-- The stored `ratio` field: the float sentinel computation
`ratio = float('inf') if inbound_count > 0 else 0.0` when there are no
outbound links, `inbound_count / outbound_count` otherwise, followed by
`round(ratio, 2) if ratio != float('inf') else -1`. -/
def pyRatio (inbound_count outbound_count : ℕ) : ℚ :=
  let ratio : PyFloat :=
    if outbound_count = 0 then
      (if 0 < inbound_count then PyFloat.inf else PyFloat.fin 0)
    else PyFloat.fin ((inbound_count : ℚ) / (outbound_count : ℚ))
  match ratio with
  | PyFloat.inf => -1
  | PyFloat.fin q => pyRound2 q

/-- Python string comparison `s <= t`: lexicographic on code points. -/
def strLeB : List Char → List Char → Bool
  | [], _ => true
  | _ :: _, [] => false
  | a :: as, b :: bs =>
    if a < b then true
    else if b < a then false
    else strLeB as bs

/-- Python `s <= t` on strings, as a relation for sorting. -/
def strLe (s t : String) : Prop :=
  strLeB s.data t.data = true

instance : DecidableRel strLe := fun s t =>
  instDecidableEqBool (strLeB s.data t.data) true

theorem strLeB_total : ∀ (s t : List Char), strLeB s t = true ∨ strLeB t s = true
  | [], _ => Or.inl rfl
  | _ :: _, [] => Or.inr rfl
  | a :: as, b :: bs => by
    rcases lt_trichotomy a b with h | h | h
    · left
      simp [strLeB, h]
    · subst h
      rcases strLeB_total as bs with h' | h'
      · left
        simpa [strLeB] using h'
      · right
        simpa [strLeB] using h'
    · right
      simp [strLeB, h]

theorem strLeB_trans : ∀ (s t u : List Char),
    strLeB s t = true → strLeB t u = true → strLeB s u = true
  | [], _, _, _, _ => rfl
  | _ :: _, [], _, h, _ => by simp [strLeB] at h
  | _ :: _, _ :: _, [], _, h => by simp [strLeB] at h
  | a :: as, b :: bs, c :: cs, h1, h2 => by
    rcases lt_trichotomy a b with hab | hab | hab
    · rcases lt_trichotomy b c with hbc | hbc | hbc
      · simp [strLeB, lt_trans hab hbc]
      · subst hbc
        simp [strLeB, hab]
      · rw [strLeB, if_neg (asymm hbc), if_pos hbc] at h2
        exact absurd h2 (by simp)
    · subst hab
      rcases lt_trichotomy a c with hac | hac | hac
      · simp [strLeB, hac]
      · subst hac
        rw [strLeB, if_neg (lt_irrefl a), if_neg (lt_irrefl a)] at h1 h2 ⊢
        exact strLeB_trans as bs cs h1 h2
      · rw [strLeB, if_neg (asymm hac), if_pos hac] at h2
        exact absurd h2 (by simp)
    · rw [strLeB, if_neg (asymm hab), if_pos hab] at h1
      exact absurd h1 (by simp)

instance : IsTotal String strLe :=
  ⟨fun s t => strLeB_total s.data t.data⟩

instance : IsTrans String strLe :=
  ⟨fun s t u => strLeB_trans s.data t.data u.data⟩

/-- `PageMetrics` dataclass. -/
structure PageMetrics where
  url : String
  inbound : ℕ
  outbound : ℕ
  ratio : ℚ
  inbound_from : List String
  outbound_to : List String
deriving DecidableEq

/-- `LinkGraphAnalyzer.calculate_metrics`: one `PageMetrics` per page of
`all_pages`, computed from the graph and the derived reverse index. -/
def calculate_metrics (g : List (String × List String)) (pages : List String) :
    List (String × PageMetrics) :=
  pages.map (fun page =>
    let inbound_list := inboundSources g page
    let outbound_list := outboundOf g page
    (page,
      { url := page
        inbound := inbound_list.length
        outbound := outbound_list.length
        ratio := pyRatio inbound_list.length outbound_list.length
        inbound_from := (List.insertionSort strLe inbound_list).take 10
        outbound_to := (List.insertionSort strLe outbound_list).take 10 }))

/-! ### Reverse-index membership and edge-count conservation -/

theorem outboundOf_eq_nil {g : List (String × List String)} {p : String}
    (hp : p ∉ g.map Prod.fst) : outboundOf g p = [] := by
  induction g with
  | nil => rfl
  | cons e g' ih =>
    simp only [List.map_cons, List.mem_cons, not_or] at hp
    rw [outboundOf, if_neg hp.1]
    exact ih hp.2

theorem mem_outboundOf {g : List (String × List String)}
    (hkeys : (g.map Prod.fst).Nodup) {s t : String} :
    t ∈ outboundOf g s ↔ ∃ ts, (s, ts) ∈ g ∧ t ∈ ts := by
  induction g with
  | nil => simp [outboundOf]
  | cons e g' ih =>
    rw [List.map_cons, List.nodup_cons] at hkeys
    rw [outboundOf]
    by_cases hs : s = e.1
    · subst hs
      rw [if_pos rfl]
      constructor
      · intro ht
        exact ⟨e.2, List.mem_cons.mpr (Or.inl Prod.mk.eta), ht⟩
      · rintro ⟨ts, hmem, ht⟩
        rcases List.mem_cons.mp hmem with h | h
        · have : ts = e.2 := congrArg Prod.snd h
          exact this ▸ ht
        · exact absurd (List.mem_map.mpr ⟨(e.1, ts), h, rfl⟩) hkeys.1
    · rw [if_neg hs, ih hkeys.2]
      constructor
      · rintro ⟨ts, hmem, ht⟩
        exact ⟨ts, List.mem_cons_of_mem _ hmem, ht⟩
      · rintro ⟨ts, hmem, ht⟩
        rcases List.mem_cons.mp hmem with h | h
        · exact absurd (congrArg Prod.fst h) hs
        · exact ⟨ts, h, ht⟩

theorem mem_inboundSources {g : List (String × List String)} {s t : String} :
    s ∈ inboundSources g t ↔ ∃ ts, (s, ts) ∈ g ∧ t ∈ ts := by
  induction g with
  | nil => simp [inboundSources]
  | cons e g' ih =>
    rw [inboundSources]
    simp only [List.mem_append, List.mem_replicate, ih]
    constructor
    · rintro (⟨hcnt, rfl⟩ | ⟨ts, hmem, ht⟩)
      · exact ⟨e.2, List.mem_cons.mpr (Or.inl Prod.mk.eta),
          List.count_pos_iff.mp (Nat.pos_of_ne_zero hcnt)⟩
      · exact ⟨ts, List.mem_cons_of_mem _ hmem, ht⟩
    · rintro ⟨ts, hmem, ht⟩
      rcases List.mem_cons.mp hmem with h | h
      · left
        have h1 : s = e.1 := congrArg Prod.fst h
        have h2 : ts = e.2 := congrArg Prod.snd h
        refine ⟨?_, h1⟩
        rw [← h2]
        exact (List.count_pos_iff.mpr ht).ne'
      · exact Or.inr ⟨ts, h, ht⟩

theorem sum_map_add_nat {α : Type} (l : List α) (f g : α → ℕ) :
    (l.map (fun x => f x + g x)).sum = (l.map f).sum + (l.map g).sum := by
  induction l with
  | nil => rfl
  | cons x xs ih =>
    simp only [List.map_cons, List.sum_cons, ih]
    omega

theorem sum_map_ite_of_nodup (x : ℕ) (h : String → ℕ) (a : String) (h0 : h a = 0) :
    ∀ (pages : List String), pages.Nodup → a ∈ pages →
      (pages.map (fun p => if p = a then x else h p)).sum = x + (pages.map h).sum := by
  intro pages
  induction pages with
  | nil => intro _ ha; cases ha
  | cons q qs ih =>
    intro hnd ha
    rw [List.nodup_cons] at hnd
    by_cases hqa : q = a
    · subst hqa
      have hmap : qs.map (fun p => if p = q then x else h p) = qs.map h := by
        apply List.map_congr_left
        intro p hp
        rw [if_neg]
        intro hpq
        exact hnd.1 (hpq ▸ hp)
      simp only [List.map_cons, List.sum_cons]
      rw [if_pos trivial, hmap, h0]
      omega
    · have ha' : a ∈ qs := by
        rcases List.mem_cons.mp ha with h' | h'
        · exact absurd h'.symm hqa
        · exact h'
      simp only [List.map_cons, List.sum_cons, if_neg hqa]
      rw [ih hnd.2 ha']
      omega

theorem sum_outbound_lengths :
    ∀ (g : List (String × List String)) (pages : List String),
      (g.map Prod.fst).Nodup → pages.Nodup → (∀ e ∈ g, e.1 ∈ pages) →
      (pages.map (fun p => (outboundOf g p).length)).sum =
        (g.map (fun e => e.2.length)).sum := by
  intro g
  induction g with
  | nil =>
    intro pages _ _ _
    simp [outboundOf]
  | cons e g' ih =>
    intro pages hkeys hpages hsub
    rw [List.map_cons, List.nodup_cons] at hkeys
    have hform : pages.map (fun p => (outboundOf (e :: g') p).length) =
        pages.map (fun p => if p = e.1 then e.2.length else (outboundOf g' p).length) := by
      apply List.map_congr_left
      intro p _
      rw [outboundOf, apply_ite List.length]
    rw [hform,
      sum_map_ite_of_nodup e.2.length (fun p => (outboundOf g' p).length) e.1
        (by show (outboundOf g' e.1).length = 0; rw [outboundOf_eq_nil hkeys.1]; rfl) pages hpages
        (hsub e (List.mem_cons_self _ _)),
      ih pages hkeys.2 hpages (fun e' he' => hsub e' (List.mem_cons_of_mem _ he'))]
    simp

theorem inboundSources_length (g : List (String × List String)) (t : String) :
    (inboundSources g t).length = (g.map (fun e => e.2.count t)).sum := by
  induction g with
  | nil => rfl
  | cons e g' ih =>
    rw [inboundSources]
    simp [ih]

theorem sum_map_sum_comm {α β : Type} (l₁ : List α) (l₂ : List β) (f : α → β → ℕ) :
    (l₁.map (fun a => (l₂.map (f a)).sum)).sum =
      (l₂.map (fun b => (l₁.map (fun a => f a b)).sum)).sum := by
  induction l₁ with
  | nil => simp
  | cons x xs ih =>
    simp only [List.map_cons, List.sum_cons, ih, sum_map_add_nat]

theorem sum_map_count (pages : List String) (hnd : pages.Nodup) :
    ∀ (ts : List String), (∀ t ∈ ts, t ∈ pages) →
      (pages.map (fun p => ts.count p)).sum = ts.length := by
  intro ts
  induction ts with
  | nil =>
    intro _
    simp
  | cons t ts' ih =>
    intro hsub
    have h1 : pages.map (fun p => (t :: ts').count p) =
        pages.map (fun p => ts'.count p + if p = t then 1 else 0) := by
      apply List.map_congr_left
      intro p _
      rw [List.count_cons]
      by_cases hpt : p = t
      · simp [hpt]
      · simp [hpt, Ne.symm hpt]
    rw [h1, sum_map_add_nat,
      ih (fun x hx => hsub x (List.mem_cons_of_mem _ hx))]
    have h2 : (pages.map (fun p => if p = t then 1 else 0)).sum = 1 := by
      have := sum_map_ite_of_nodup 1 (fun _ => 0) t rfl pages hnd
        (hsub t (List.mem_cons_self _ _))
      simpa using this
    rw [h2]
    simp

/-- Claim C2: in the reverse index derived by `calculate_metrics`, a target
lies in the outbound set of a source exactly when the source lies in the
inbound set of the target; consequently the outbound counts and the inbound
counts of the computed metrics have equal totals. The hypotheses record what
`build_graph` guarantees: graph keys are distinct, `all_pages` is a
duplicate-free set containing every source and every target. -/
theorem link_graph_reverse_index_invariant
    (g : List (String × List String)) (pages : List String)
    (hkeys : (g.map Prod.fst).Nodup) (hpages : pages.Nodup)
    (hsrc : ∀ e ∈ g, e.1 ∈ pages) (htgt : ∀ e ∈ g, ∀ t ∈ e.2, t ∈ pages) :
    (∀ s t : String, t ∈ outboundOf g s ↔ s ∈ inboundSources g t) ∧
    ((calculate_metrics g pages).map (fun e => e.2.outbound)).sum =
      ((calculate_metrics g pages).map (fun e => e.2.inbound)).sum := by
  constructor
  · intro s t
    rw [mem_outboundOf hkeys, mem_inboundSources]
  · have hout : (calculate_metrics g pages).map (fun e => e.2.outbound) =
        pages.map (fun p => (outboundOf g p).length) := by
      simp only [calculate_metrics, List.map_map]
      rfl
    have hin : (calculate_metrics g pages).map (fun e => e.2.inbound) =
        pages.map (fun p => (inboundSources g p).length) := by
      simp only [calculate_metrics, List.map_map]
      rfl
    rw [hout, hin, sum_outbound_lengths g pages hkeys hpages hsrc]
    have hswap : pages.map (fun p => (inboundSources g p).length) =
        pages.map (fun p => (g.map (fun e => e.2.count p)).sum) := by
      apply List.map_congr_left
      intro p _
      exact inboundSources_length g p
    rw [hswap, sum_map_sum_comm pages g (fun p e => e.2.count p)]
    refine congrArg List.sum (List.map_congr_left ?_)
    intro e he
    exact (sum_map_count pages hpages e.2 (htgt e he)).symm

/-- Witness for `link_graph_reverse_index_invariant` on the three-page site
of the spec: `/` links to `/a/`, `/a/` links to `/b/`, `/b/` links nowhere. -/
theorem link_graph_reverse_index_invariant_witness :
    (([("/", ["/a/"]), ("/a/", ["/b/"])].map Prod.fst).Nodup ∧
      (["/", "/a/", "/b/"] : List String).Nodup ∧
      (∀ e ∈ [("/", ["/a/"]), ("/a/", ["/b/"])], e.1 ∈ ["/", "/a/", "/b/"]) ∧
      (∀ e ∈ [("/", ["/a/"]), ("/a/", ["/b/"])], ∀ t ∈ e.2, t ∈ ["/", "/a/", "/b/"])) ∧
    ((∀ s t : String, t ∈ outboundOf [("/", ["/a/"]), ("/a/", ["/b/"])] s ↔
        s ∈ inboundSources [("/", ["/a/"]), ("/a/", ["/b/"])] t) ∧
      ((calculate_metrics [("/", ["/a/"]), ("/a/", ["/b/"])] ["/", "/a/", "/b/"]).map
          (fun e => e.2.outbound)).sum =
        ((calculate_metrics [("/", ["/a/"]), ("/a/", ["/b/"])] ["/", "/a/", "/b/"]).map
          (fun e => e.2.inbound)).sum) :=
  ⟨⟨by decide, by decide, by decide, by decide⟩,
    link_graph_reverse_index_invariant _ _ (by decide) (by decide) (by decide) (by decide)⟩

/-! ### Ratio policy (claim C3) -/

theorem calculate_metrics_ratio (g : List (String × List String))
    (pages : List String) (p : String) (m : PageMetrics)
    (hm : (p, m) ∈ calculate_metrics g pages) :
    m.ratio = pyRatio m.inbound m.outbound := by
  simp only [calculate_metrics, List.mem_map] at hm
  obtain ⟨page, _, heq⟩ := hm
  injection heq with h1 h2
  subst h2
  rfl

theorem roundHalfEven_zero : roundHalfEven 0 = 0 := by
  have hf : Rat.floor 0 = 0 := by
    rw [Rat.floor_def']
    rfl
  simp only [roundHalfEven, hf]
  norm_num

theorem pyRound2_zero : pyRound2 0 = 0 := by
  simp only [pyRound2, zero_mul, roundHalfEven_zero]
  norm_num

theorem pyRatio_spec (i o : ℕ) :
    (o = 0 → 0 < i → pyRatio i o = -1) ∧
    (o = 0 → i = 0 → pyRatio i o = 0) ∧
    (o ≠ 0 → pyRatio i o = pyRound2 ((i : ℚ) / (o : ℚ))) := by
  refine ⟨?_, ?_, ?_⟩
  · intro h1 h2
    simp only [pyRatio]
    rw [if_pos h1, if_pos h2]
  · intro h1 h2
    simp only [pyRatio]
    rw [if_pos h1, if_neg (by omega)]
    show pyRound2 0 = 0
    exact pyRound2_zero
  · intro h1
    simp only [pyRatio]
    rw [if_neg h1]

/-- Claim C3: in every computed metrics mapping, the `ratio` field is the
sentinel `-1` when the page has no outbound links but some inbound links,
`0` when it has neither, and `round(inbound / outbound, 2)` otherwise. -/
theorem ratio_policy (g : List (String × List String)) (pages : List String)
    (p : String) (m : PageMetrics) (hm : (p, m) ∈ calculate_metrics g pages) :
    (m.outbound = 0 → 0 < m.inbound → m.ratio = -1) ∧
    (m.outbound = 0 → m.inbound = 0 → m.ratio = 0) ∧
    (m.outbound ≠ 0 → m.ratio = pyRound2 ((m.inbound : ℚ) / (m.outbound : ℚ))) := by
  have hr := calculate_metrics_ratio g pages p m hm
  have hs := pyRatio_spec m.inbound m.outbound
  exact ⟨fun h1 h2 => hr.trans (hs.1 h1 h2),
    fun h1 h2 => hr.trans (hs.2.1 h1 h2),
    fun h1 => hr.trans (hs.2.2 h1)⟩

/-- Witness for `ratio_policy` at the page `/b/` of a concrete two-page
graph: one inbound link, no outbound links, sentinel ratio `-1`. -/
theorem ratio_policy_witness :
    (("/b/", (⟨"/b/", 1, 0, -1, ["/a/"], []⟩ : PageMetrics)) ∈
        calculate_metrics [("/a/", ["/b/"])] ["/a/", "/b/"]) ∧
    ((⟨"/b/", 1, 0, -1, ["/a/"], []⟩ : PageMetrics).outbound = 0 →
        0 < (⟨"/b/", 1, 0, -1, ["/a/"], []⟩ : PageMetrics).inbound →
        (⟨"/b/", 1, 0, -1, ["/a/"], []⟩ : PageMetrics).ratio = -1) ∧
    ((⟨"/b/", 1, 0, -1, ["/a/"], []⟩ : PageMetrics).outbound = 0 →
        (⟨"/b/", 1, 0, -1, ["/a/"], []⟩ : PageMetrics).inbound = 0 →
        (⟨"/b/", 1, 0, -1, ["/a/"], []⟩ : PageMetrics).ratio = 0) ∧
    ((⟨"/b/", 1, 0, -1, ["/a/"], []⟩ : PageMetrics).outbound ≠ 0 →
        (⟨"/b/", 1, 0, -1, ["/a/"], []⟩ : PageMetrics).ratio =
          pyRound2 (((⟨"/b/", 1, 0, -1, ["/a/"], []⟩ : PageMetrics).inbound : ℚ) /
            ((⟨"/b/", 1, 0, -1, ["/a/"], []⟩ : PageMetrics).outbound : ℚ))) :=
  ⟨List.Mem.tail _ (List.Mem.head _),
    ratio_policy [("/a/", ["/b/"])] ["/a/", "/b/"] "/b/" ⟨"/b/", 1, 0, -1, ["/a/"], []⟩
      (List.Mem.tail _ (List.Mem.head _))⟩

/-! ## Classifier (`find_orphans`, `find_underlinked`, `find_overlinked`,
`find_link_sinks`)

Each classifier iterates `self.metrics.items()` (modelled as an association
list in iteration order), collects the matching entries, and applies
Python's `sorted`, a stable sort, modelled by `List.insertionSort` with a
non-strict comparison. -/

/-- Entry of the `find_underlinked` result list. -/
structure ULEntry where
  url : String
  inbound : ℕ
  inbound_from : List String
deriving DecidableEq

/-- Entry of the `find_overlinked` result list. -/
structure OLEntry where
  url : String
  outbound : ℕ
deriving DecidableEq

/-- Entry of the `find_link_sinks` result list. -/
structure SinkEntry where
  url : String
  inbound : ℕ
  outbound : ℕ
deriving DecidableEq

/-- Sort key of `find_underlinked`: ascending inbound count. -/
def ulLe (a b : ULEntry) : Prop := a.inbound ≤ b.inbound

/-- Sort key of `find_overlinked`: descending outbound count
(`reverse=True`). -/
def olGe (a b : OLEntry) : Prop := b.outbound ≤ a.outbound

/-- Sort key of `find_link_sinks`: descending inbound count
(`reverse=True`). -/
def sinkGe (a b : SinkEntry) : Prop := b.inbound ≤ a.inbound

instance : DecidableRel ulLe := fun _ _ => Nat.decLe _ _
instance : DecidableRel olGe := fun _ _ => Nat.decLe _ _
instance : DecidableRel sinkGe := fun _ _ => Nat.decLe _ _
instance : IsTotal ULEntry ulLe := ⟨fun _ _ => Nat.le_total _ _⟩
instance : IsTotal OLEntry olGe := ⟨fun _ _ => Nat.le_total _ _⟩
instance : IsTotal SinkEntry sinkGe := ⟨fun _ _ => Nat.le_total _ _⟩
instance : IsTrans ULEntry ulLe := ⟨fun _ _ _ => Nat.le_trans⟩
instance : IsTrans OLEntry olGe := ⟨fun _ _ _ h1 h2 => Nat.le_trans h2 h1⟩
instance : IsTrans SinkEntry sinkGe := ⟨fun _ _ _ h1 h2 => Nat.le_trans h2 h1⟩

/-- `LinkGraphAnalyzer.find_orphans`: pages with zero inbound links, the
homepage excluded, sorted with Python string order. -/
def find_orphans (metrics : List (String × PageMetrics)) : List String :=
  List.insertionSort strLe
    ((metrics.filter (fun e => e.2.inbound = 0 && e.1 ≠ "/")).map Prod.fst)

/-- `LinkGraphAnalyzer.find_underlinked`: pages with `0 < inbound <
threshold`, sorted ascending by inbound count (`sorted` is stable). -/
def find_underlinked (metrics : List (String × PageMetrics)) (threshold : ℕ) :
    List ULEntry :=
  List.insertionSort ulLe
    ((metrics.filter (fun e => 0 < e.2.inbound && e.2.inbound < threshold)).map
      (fun e => ⟨e.1, e.2.inbound, e.2.inbound_from⟩))

/-- `LinkGraphAnalyzer.find_overlinked`: pages with `outbound > threshold`,
sorted descending by outbound count. -/
def find_overlinked (metrics : List (String × PageMetrics)) (threshold : ℕ) :
    List OLEntry :=
  List.insertionSort olGe
    ((metrics.filter (fun e => threshold < e.2.outbound)).map
      (fun e => ⟨e.1, e.2.outbound⟩))

/-- `LinkGraphAnalyzer.find_link_sinks`: pages with `inbound >= min_inbound`
and `outbound <= max_outbound`, sorted descending by inbound count. -/
def find_link_sinks (metrics : List (String × PageMetrics))
    (min_inbound max_outbound : ℕ) : List SinkEntry :=
  List.insertionSort sinkGe
    ((metrics.filter
        (fun e => min_inbound ≤ e.2.inbound && e.2.outbound ≤ max_outbound)).map
      (fun e => ⟨e.1, e.2.inbound, e.2.outbound⟩))

/-- Claim C9: the orphan list holds exactly the pages with zero inbound
links other than the homepage `/`, in Python's string order; in particular
`/` never appears, whatever its inbound count. -/
theorem find_orphans_spec (metrics : List (String × PageMetrics)) :
    (find_orphans metrics).Perm
        ((metrics.filter (fun e => e.2.inbound = 0 && e.1 ≠ "/")).map Prod.fst) ∧
    List.Sorted strLe (find_orphans metrics) ∧
    (∀ p : String, p ∈ find_orphans metrics ↔
        ∃ m : PageMetrics, (p, m) ∈ metrics ∧ m.inbound = 0 ∧ p ≠ "/") ∧
    "/" ∉ find_orphans metrics := by
  have hperm : (find_orphans metrics).Perm
      ((metrics.filter (fun e => e.2.inbound = 0 && e.1 ≠ "/")).map Prod.fst) :=
    List.perm_insertionSort _ _
  have hiff : ∀ p : String, p ∈ find_orphans metrics ↔
      ∃ m : PageMetrics, (p, m) ∈ metrics ∧ m.inbound = 0 ∧ p ≠ "/" := by
    intro p
    rw [hperm.mem_iff, List.mem_map]
    constructor
    · rintro ⟨e, hef, rfl⟩
      have hmem := List.mem_of_mem_filter hef
      have hprop := List.of_mem_filter hef
      simp only [Bool.and_eq_true, decide_eq_true_eq] at hprop
      exact ⟨e.2, Prod.mk.eta ▸ hmem, hprop.1, hprop.2⟩
    · rintro ⟨m, hmem, h0, hne⟩
      refine ⟨(p, m), List.mem_filter.mpr ⟨hmem, ?_⟩, rfl⟩
      simp [h0, hne]
  refine ⟨hperm, List.sorted_insertionSort _ _, hiff, ?_⟩
  intro hmem
  obtain ⟨m, _, _, hne⟩ := (hiff "/").mp hmem
  exact hne rfl

/-- Claim C7, refuted as stated: with two pages `/b/` and `/a/` both having
exactly one inbound link, `find_underlinked` keeps them in metrics-iteration
order (`/b/` first), although page identity would order `/a/` first — the
tie is not broken by page identity. -/
theorem classifier_tie_counterexample :
    find_underlinked
        [("/b/", ⟨"/b/", 1, 0, -1, [], []⟩), ("/a/", ⟨"/a/", 1, 0, -1, [], []⟩)] 3 =
      [⟨"/b/", 1, []⟩, ⟨"/a/", 1, []⟩] ∧
    strLe "/a/" "/b/" ∧ "/a/" ≠ "/b/" := by
  refine ⟨?_, by decide, by decide⟩
  decide

/-- Claim C7, amended: each classifier list is sorted by its count key
(ascending inbound for under-linked, descending outbound for over-linked,
descending inbound for sinks) and is a permutation of the matching metrics
entries; ties are kept in metrics-iteration order (Python's `sorted` is
stable) rather than re-ordered by page identity. -/
theorem classifier_sorted (metrics : List (String × PageMetrics))
    (ut ot smin smax : ℕ) :
    (List.Sorted ulLe (find_underlinked metrics ut) ∧
      (find_underlinked metrics ut).Perm
        ((metrics.filter (fun e => 0 < e.2.inbound && e.2.inbound < ut)).map
          (fun e => ⟨e.1, e.2.inbound, e.2.inbound_from⟩))) ∧
    (List.Sorted olGe (find_overlinked metrics ot) ∧
      (find_overlinked metrics ot).Perm
        ((metrics.filter (fun e => ot < e.2.outbound)).map
          (fun e => ⟨e.1, e.2.outbound⟩))) ∧
    (List.Sorted sinkGe (find_link_sinks metrics smin smax) ∧
      (find_link_sinks metrics smin smax).Perm
        ((metrics.filter
            (fun e => smin ≤ e.2.inbound && e.2.outbound ≤ smax)).map
          (fun e => ⟨e.1, e.2.inbound, e.2.outbound⟩))) :=
  ⟨⟨List.sorted_insertionSort _ _, List.perm_insertionSort _ _⟩,
    ⟨List.sorted_insertionSort _ _, List.perm_insertionSort _ _⟩,
    ⟨List.sorted_insertionSort _ _, List.perm_insertionSort _ _⟩⟩

/-! ## External link validator (`HTTPLinkChecker.check_url`, `check_urls`)

The network is modelled as an oracle giving, per loop iteration, the outcome
of the HEAD request and of the fallback GET request: either a response or
one of the `requests` exceptions caught by `check_url`. Every exception is
caught, so the embedding is a total function — no exception escapes. -/

/-- Exceptions a `requests` call can raise, as caught by `check_url`. -/
inductive NetExc where
  | timeout
  | connError
  | tooManyRedirects
  | sslError
  | other (msg : String)
deriving DecidableEq

/-- An HTTP response: status code and reason phrase. -/
structure Resp where
  code : ℕ
  reason : String
deriving DecidableEq

/-- Outcome of one `requests` call: a response, or a raised exception. -/
inductive ReqOutcome where
  | resp (r : Resp)
  | exc (e : NetExc)
deriving DecidableEq

/-- Network behaviour of one loop iteration: the outcome of the HEAD request
and, when the HEAD status is 405 or 403, of the fallback GET request
(with its bounded body read). -/
structure AttemptBehavior where
  head : ReqOutcome
  get : ReqOutcome
deriving DecidableEq

/-- Result triple of `check_url`: optional status code, status message and
broken verdict. -/
structure CheckResult where
  status_code : Option ℕ
  status_message : String
  is_broken : Bool
deriving DecidableEq

/-- Outcome of the `try` block of one loop iteration: a returned result, or
an exception escaping to the handlers. -/
inductive AttemptOutcome where
  | done (r : CheckResult)
  | raised (e : NetExc)
deriving DecidableEq

/-- Body of the `try` block: HEAD first, GET fallback when the HEAD status
is 405 or 403; a response is broken exactly when its status is `>= 400`;
any raised exception escapes to the handlers. -/
def runAttempt (b : AttemptBehavior) : AttemptOutcome :=
  match b.head with
  | ReqOutcome.exc e => AttemptOutcome.raised e
  | ReqOutcome.resp r =>
    if r.code = 405 ∨ r.code = 403 then
      match b.get with
      | ReqOutcome.exc e => AttemptOutcome.raised e
      | ReqOutcome.resp r2 =>
        AttemptOutcome.done ⟨some r2.code, r2.reason, decide (400 ≤ r2.code)⟩
    else
      AttemptOutcome.done ⟨some r.code, r.reason, decide (400 ≤ r.code)⟩

/-- The `for attempt in range(retry_count)` loop of `check_url`. `attempt`
is the Python loop variable and `fuel` the number of remaining iterations
(`retry_count - attempt`). A `Timeout` retries (after `time.sleep(1)`)
unless this was the last attempt; every other exception returns at once;
falling out of the loop yields the `"Unknown Error"` result. -/
def checkUrlLoop (beh : ℕ → AttemptBehavior) (retry_count : ℕ) :
    ℕ → ℕ → CheckResult
  | _, 0 => ⟨none, "Unknown Error", true⟩
  | attempt, fuel + 1 =>
    match runAttempt (beh attempt) with
    | AttemptOutcome.done r => r
    | AttemptOutcome.raised NetExc.timeout =>
      if attempt = retry_count - 1 then ⟨none, "Timeout", true⟩
      else checkUrlLoop beh retry_count (attempt + 1) fuel
    | AttemptOutcome.raised NetExc.connError =>
      ⟨none, "Connection Error (Domain may not exist)", true⟩
    | AttemptOutcome.raised NetExc.tooManyRedirects =>
      ⟨none, "Too Many Redirects", true⟩
    | AttemptOutcome.raised NetExc.sslError =>
      ⟨none, "SSL Certificate Error", true⟩
    | AttemptOutcome.raised (NetExc.other msg) =>
      ⟨none, "Error: " ++ msg, true⟩

/-- `HTTPLinkChecker.check_url` for a URL whose per-attempt network
behaviour is `beh`. -/
def check_url (beh : ℕ → AttemptBehavior) (retry_count : ℕ) : CheckResult :=
  checkUrlLoop beh retry_count 0 retry_count

/-- Number of loop iterations `check_url` performs, mirroring
`checkUrlLoop`. -/
def attemptsUsedLoop (beh : ℕ → AttemptBehavior) (retry_count : ℕ) :
    ℕ → ℕ → ℕ
  | _, 0 => 0
  | attempt, fuel + 1 =>
    match runAttempt (beh attempt) with
    | AttemptOutcome.raised NetExc.timeout =>
      if attempt = retry_count - 1 then 1
      else 1 + attemptsUsedLoop beh retry_count (attempt + 1) fuel
    | _ => 1

/-- Number of request attempts `check_url` makes. -/
def attemptsUsed (beh : ℕ → AttemptBehavior) (retry_count : ℕ) : ℕ :=
  attemptsUsedLoop beh retry_count 0 retry_count

/-! ### Connection failure (claim C5) and timeout retry (claim C6) -/

/-- Claim C5, refuted as stated: on a connection failure the reported
reason is the string `"Connection Error (Domain may not exist)"`, not the
string `"Connection Error"`. -/
theorem connection_error_reason_counterexample :
    check_url (fun _ => ⟨ReqOutcome.exc NetExc.connError,
        ReqOutcome.exc NetExc.connError⟩) 1 =
      ⟨none, "Connection Error (Domain may not exist)", true⟩ ∧
    (check_url (fun _ => ⟨ReqOutcome.exc NetExc.connError,
        ReqOutcome.exc NetExc.connError⟩) 1).status_message ≠
      "Connection Error" := by
  refine ⟨by decide, by decide⟩

/-- Claim C5, amended: when the first attempt raises a connection error,
`check_url` reports a broken result immediately — a single attempt is made
whatever `retry_count` and whatever later attempts would return — with no
status code and with reason `"Connection Error (Domain may not exist)"`
(which begins with, but is not equal to, `"Connection Error"`). -/
theorem connection_error_immediate (beh : ℕ → AttemptBehavior)
    (retry_count : ℕ) (hrc : 1 ≤ retry_count)
    (hbeh : (beh 0).head = ReqOutcome.exc NetExc.connError) :
    check_url beh retry_count =
      ⟨none, "Connection Error (Domain may not exist)", true⟩ ∧
    attemptsUsed beh retry_count = 1 := by
  obtain ⟨r, rfl⟩ : ∃ r, retry_count = r + 1 := ⟨retry_count - 1, by omega⟩
  have hra : runAttempt (beh 0) = AttemptOutcome.raised NetExc.connError := by
    rw [runAttempt, hbeh]
  constructor
  · show checkUrlLoop beh (r + 1) 0 (r + 1) = _
    rw [checkUrlLoop, hra]
  · show attemptsUsedLoop beh (r + 1) 0 (r + 1) = 1
    rw [attemptsUsedLoop, hra]

/-- Witness for `connection_error_immediate` with `retry_count = 3`. -/
theorem connection_error_immediate_witness :
    (1 ≤ 3 ∧
      ((fun _ : ℕ => (⟨ReqOutcome.exc NetExc.connError,
          ReqOutcome.exc NetExc.connError⟩ : AttemptBehavior)) 0).head =
        ReqOutcome.exc NetExc.connError) ∧
    (check_url (fun _ => ⟨ReqOutcome.exc NetExc.connError,
        ReqOutcome.exc NetExc.connError⟩) 3 =
      ⟨none, "Connection Error (Domain may not exist)", true⟩ ∧
    attemptsUsed (fun _ => ⟨ReqOutcome.exc NetExc.connError,
        ReqOutcome.exc NetExc.connError⟩) 3 = 1) :=
  ⟨⟨by decide, rfl⟩,
    connection_error_immediate
      (fun _ => ⟨ReqOutcome.exc NetExc.connError, ReqOutcome.exc NetExc.connError⟩)
      3 (by decide) rfl⟩

theorem checkUrlLoop_all_timeout (beh : ℕ → AttemptBehavior)
    (retry_count : ℕ)
    (hbeh : ∀ i, (beh i).head = ReqOutcome.exc NetExc.timeout) :
    ∀ (fuel attempt : ℕ), attempt + fuel = retry_count → 1 ≤ fuel →
      checkUrlLoop beh retry_count attempt fuel = ⟨none, "Timeout", true⟩ := by
  intro fuel
  induction fuel with
  | zero =>
    intro _ _ h
    omega
  | succ f ih =>
    intro attempt hsum _
    have hra : runAttempt (beh attempt) = AttemptOutcome.raised NetExc.timeout := by
      rw [runAttempt, hbeh attempt]
    rw [checkUrlLoop, hra]
    show (if attempt = retry_count - 1 then (⟨none, "Timeout", true⟩ : CheckResult)
        else checkUrlLoop beh retry_count (attempt + 1) f) = ⟨none, "Timeout", true⟩
    by_cases hl : attempt = retry_count - 1
    · rw [if_pos hl]
    · rw [if_neg hl]
      exact ih (attempt + 1) (by omega) (by omega)

theorem attemptsUsedLoop_all_timeout (beh : ℕ → AttemptBehavior)
    (retry_count : ℕ)
    (hbeh : ∀ i, (beh i).head = ReqOutcome.exc NetExc.timeout) :
    ∀ (fuel attempt : ℕ), attempt + fuel = retry_count →
      attemptsUsedLoop beh retry_count attempt fuel = fuel := by
  intro fuel
  induction fuel with
  | zero =>
    intro _ _
    rfl
  | succ f ih =>
    intro attempt hsum
    have hra : runAttempt (beh attempt) = AttemptOutcome.raised NetExc.timeout := by
      rw [runAttempt, hbeh attempt]
    rw [attemptsUsedLoop, hra]
    show (if attempt = retry_count - 1 then 1
        else 1 + attemptsUsedLoop beh retry_count (attempt + 1) f) = f + 1
    by_cases hl : attempt = retry_count - 1
    · rw [if_pos hl]
      omega
    · rw [if_neg hl, ih (attempt + 1) (by omega)]
      omega

theorem attemptsUsedLoop_le (beh : ℕ → AttemptBehavior) (retry_count : ℕ) :
    ∀ (fuel attempt : ℕ),
      attemptsUsedLoop beh retry_count attempt fuel ≤ fuel := by
  intro fuel
  induction fuel with
  | zero =>
    intro _
    exact Nat.le_refl 0
  | succ f ih =>
    intro attempt
    rw [attemptsUsedLoop]
    cases hra : runAttempt (beh attempt) with
    | done r =>
      show (1 : ℕ) ≤ f + 1
      omega
    | raised e =>
      cases e with
      | timeout =>
        show (if attempt = retry_count - 1 then 1
            else 1 + attemptsUsedLoop beh retry_count (attempt + 1) f) ≤ f + 1
        by_cases hl : attempt = retry_count - 1
        · rw [if_pos hl]
          omega
        · rw [if_neg hl]
          have := ih (attempt + 1)
          omega
      | connError =>
        show (1 : ℕ) ≤ f + 1
        omega
      | tooManyRedirects =>
        show (1 : ℕ) ≤ f + 1
        omega
      | sslError =>
        show (1 : ℕ) ≤ f + 1
        omega
      | other msg =>
        show (1 : ℕ) ≤ f + 1
        omega

/-- Claim C6: when every attempt for a URL times out, `check_url` keeps
retrying with its fixed one-second back-off and, after exhausting the loop,
returns a broken result with reason `"Timeout"` and no status code; the
number of attempts is exactly `retry_count`, and for any behaviour at all
it never exceeds `retry_count`. -/
theorem timeout_retry_exhaustion (beh : ℕ → AttemptBehavior)
    (retry_count : ℕ) (hrc : 1 ≤ retry_count)
    (hbeh : ∀ i, (beh i).head = ReqOutcome.exc NetExc.timeout) :
    check_url beh retry_count = ⟨none, "Timeout", true⟩ ∧
    attemptsUsed beh retry_count = retry_count ∧
    ∀ (beh2 : ℕ → AttemptBehavior) (rc2 : ℕ), attemptsUsed beh2 rc2 ≤ rc2 :=
  ⟨checkUrlLoop_all_timeout beh retry_count hbeh retry_count 0 (by omega) hrc,
    attemptsUsedLoop_all_timeout beh retry_count hbeh retry_count 0 (by omega),
    fun beh2 rc2 => attemptsUsedLoop_le beh2 rc2 rc2 0⟩

/-- Witness for `timeout_retry_exhaustion` with `retry_count = 3`. -/
theorem timeout_retry_exhaustion_witness :
    (1 ≤ 3 ∧
      ∀ i : ℕ, ((fun _ : ℕ => (⟨ReqOutcome.exc NetExc.timeout,
          ReqOutcome.exc NetExc.timeout⟩ : AttemptBehavior)) i).head =
        ReqOutcome.exc NetExc.timeout) ∧
    (check_url (fun _ => ⟨ReqOutcome.exc NetExc.timeout,
        ReqOutcome.exc NetExc.timeout⟩) 3 = ⟨none, "Timeout", true⟩ ∧
      attemptsUsed (fun _ => ⟨ReqOutcome.exc NetExc.timeout,
        ReqOutcome.exc NetExc.timeout⟩) 3 = 3 ∧
      ∀ (beh2 : ℕ → AttemptBehavior) (rc2 : ℕ),
        attemptsUsed beh2 rc2 ≤ rc2) :=
  ⟨⟨by decide, fun _ => rfl⟩,
    timeout_retry_exhaustion
      (fun _ => ⟨ReqOutcome.exc NetExc.timeout, ReqOutcome.exc NetExc.timeout⟩)
      3 (by decide) (fun _ => rfl)⟩

/-! ### One result per URL (claim C4)

`check_urls` submits one `check_single` task per dict entry to the worker
pool and collects one result per completed future, in `as_completed` order.
The scheduler is abstracted as an arbitrary permutation `order` of the
input entries; `maxConcurrency` only bounds how many probes run at once and
does not affect which results are produced. Every per-URL probe is the
total function `check_url`, so no exception propagates. -/

/-- Metadata carried with each URL (`urls_with_info` values). -/
structure UrlInfo where
  count : ℕ
  pages : List String
deriving DecidableEq

/-- One entry of the validator's result list. -/
structure ProbeResult where
  url : String
  status_code : Option ℕ
  status_message : String
  is_broken : Bool
  occurrences : ℕ
  sample_pages : List String
deriving DecidableEq

/-- The inner `check_single` closure of `check_urls`. -/
def check_single (beh : String → ℕ → AttemptBehavior) (retry_count : ℕ)
    (u : String) (info : UrlInfo) : ProbeResult :=
  let r := check_url (beh u) retry_count
  ⟨u, r.status_code, r.status_message, r.is_broken, info.count,
    info.pages.take 5⟩

/-- `HTTPLinkChecker.check_urls`: one probe per input entry, results
collected in completion order `order` (a permutation of the inputs). -/
def check_urls (beh : String → ℕ → AttemptBehavior) (retry_count : ℕ)
    (order : List (String × UrlInfo)) : List ProbeResult :=
  order.map (fun e => check_single beh retry_count e.1 e.2)

/-- Claim C4: for every finite input mapping and every completion order,
the validator returns exactly one `ProbeResult` per input URL — the result
count equals the input count, the result URLs are a permutation of the
input URLs, and (the inputs being a dict, with distinct keys) each URL
occurs exactly once. The probes are total functions, so no exception
escapes the component. -/
theorem check_urls_one_result_per_url (beh : String → ℕ → AttemptBehavior)
    (retry_count : ℕ) (inputs order : List (String × UrlInfo))
    (hperm : order.Perm inputs) (hnodup : (inputs.map Prod.fst).Nodup) :
    (check_urls beh retry_count order).length = inputs.length ∧
    ((check_urls beh retry_count order).map (fun r => r.url)).Perm
      (inputs.map Prod.fst) ∧
    ∀ u ∈ inputs.map Prod.fst,
      ((check_urls beh retry_count order).map (fun r => r.url)).count u = 1 := by
  have hmap : (check_urls beh retry_count order).map (fun r => r.url) =
      order.map Prod.fst := by
    rw [check_urls, List.map_map]
    rfl
  have hpermmap : (order.map Prod.fst).Perm (inputs.map Prod.fst) :=
    hperm.map Prod.fst
  refine ⟨?_, ?_, ?_⟩
  · rw [check_urls, List.length_map, hperm.length_eq]
  · rw [hmap]
    exact hpermmap
  · intro u hu
    rw [hmap, hpermmap.count_eq]
    exact List.count_eq_one_of_mem hnodup hu

/-- Witness for `check_urls_one_result_per_url`: 100 distinct URLs
(`maxConcurrency` does not appear in the result multiset), probed in
submission order against a network where everything responds 200, yield
exactly 100 results. -/
theorem check_urls_one_result_per_url_witness :
    (((List.range 100).map
          (fun i => (toString i, (⟨1, []⟩ : UrlInfo)))).Perm
        ((List.range 100).map (fun i => (toString i, (⟨1, []⟩ : UrlInfo)))) ∧
      (((List.range 100).map
          (fun i => (toString i, (⟨1, []⟩ : UrlInfo)))).map Prod.fst).Nodup) ∧
    ((check_urls (fun _ _ => ⟨ReqOutcome.resp ⟨200, "OK"⟩,
          ReqOutcome.resp ⟨200, "OK"⟩⟩) 1
        ((List.range 100).map
          (fun i => (toString i, (⟨1, []⟩ : UrlInfo))))).length =
      ((List.range 100).map
          (fun i => (toString i, (⟨1, []⟩ : UrlInfo)))).length ∧
      ((check_urls (fun _ _ => ⟨ReqOutcome.resp ⟨200, "OK"⟩,
          ReqOutcome.resp ⟨200, "OK"⟩⟩) 1
        ((List.range 100).map
          (fun i => (toString i, (⟨1, []⟩ : UrlInfo))))).map
            (fun r => r.url)).Perm
        (((List.range 100).map
          (fun i => (toString i, (⟨1, []⟩ : UrlInfo)))).map Prod.fst) ∧
      ∀ u ∈ ((List.range 100).map
          (fun i => (toString i, (⟨1, []⟩ : UrlInfo)))).map Prod.fst,
        ((check_urls (fun _ _ => ⟨ReqOutcome.resp ⟨200, "OK"⟩,
            ReqOutcome.resp ⟨200, "OK"⟩⟩) 1
          ((List.range 100).map
            (fun i => (toString i, (⟨1, []⟩ : UrlInfo))))).map
              (fun r => r.url)).count u = 1) ∧
    ((List.range 100).map
        (fun i => (toString i, (⟨1, []⟩ : UrlInfo)))).length = 100 :=
  ⟨⟨List.Perm.refl _, by decide⟩,
    check_urls_one_result_per_url _ 1 _ _ (List.Perm.refl _) (by decide),
    by decide⟩

/-! ## False-positive filter (`filter_false_positives`) -/

/-- Python substring test `needle in hay`. -/
def containsSub (needle : List Char) : List Char → Bool
  | [] => needle.isEmpty
  | c :: rest => needle.isPrefixOf (c :: rest) || containsSub needle rest

/-- Python `url.lower()`, character by character. -/
def toLowerStr (s : String) : String :=
  ⟨s.data.map Char.toLower⟩

/-- Python `url.startswith(pre)`. -/
def startsWithB (pre s : String) : Bool :=
  pre.data.isPrefixOf s.data

/-- Built-in default bot-blocker domains of `filter_false_positives`. -/
def defaultBotBlockerDomains : List String :=
  ["linkedin.com", "stackoverflow.com", "twitter.com", "x.com",
   "facebook.com", "instagram.com", "pixabay.com", "unsplash.com"]

/-- Built-in default ignorable status codes of `filter_false_positives`. -/
def defaultIgnoreStatusCodes : List ℕ := [403, 503, 520, 999]

/-- Python `x or default` for an optional list argument: `None` and the
empty list are both falsy, so both select the default. -/
def orDefault {α : Type} (x : Option (List α)) (dflt : List α) : List α :=
  match x with
  | none => dflt
  | some l => if l.isEmpty then dflt else l

/-- Loop-body test of `filter_false_positives`: the lowercased URL contains
a bot-blocker domain, or the status code is in the ignore list (`None` is
never in a list of integers), or the link is `mailto:`/`tel:`. -/
def isFalsePositive (bot_blockers : List String) (ignore_codes : List ℕ)
    (r : ProbeResult) : Bool :=
  let url := toLowerStr r.url
  bot_blockers.any (fun d => containsSub d.data url.data) ||
  (match r.status_code with
   | some c => ignore_codes.contains c
   | none => false) ||
  startsWithB "mailto:" url || startsWithB "tel:" url

/-- The loop of `filter_false_positives`: each broken result goes to the
real-broken or the false-positive list in input order; non-broken results
are skipped (`continue`). -/
def filterLoop (bot_blockers : List String) (ignore_codes : List ℕ) :
    List ProbeResult → List ProbeResult × List ProbeResult
  | [] => ([], [])
  | r :: rest =>
    let acc := filterLoop bot_blockers ignore_codes rest
    if r.is_broken = false then acc
    else if isFalsePositive bot_blockers ignore_codes r then
      (acc.1, r :: acc.2)
    else (r :: acc.1, acc.2)

/-- `filter_false_positives(results, bot_blocker_domains,
ignore_status_codes)` with Python's `or`-defaulting of both list
arguments. -/
def filter_false_positives (results : List ProbeResult)
    (bot_blocker_domains : Option (List String))
    (ignore_status_codes : Option (List ℕ)) :
    List ProbeResult × List ProbeResult :=
  filterLoop (orDefault bot_blocker_domains defaultBotBlockerDomains)
    (orDefault ignore_status_codes defaultIgnoreStatusCodes) results

/-- Modelled from the spec wording of §4.6, for comparison: only broken
results are considered, each reclassified with exactly the supplied lists
(no defaulting): a false positive iff the URL contains a supplied domain,
or the status code is in the supplied ignore list, or the link is
`mailto:`/`tel:`. -/
def filterWithSuppliedLists (bot_blockers : List String)
    (ignore_codes : List ℕ) (results : List ProbeResult) :
    List ProbeResult × List ProbeResult :=
  (results.filter
      (fun r => r.is_broken && !isFalsePositive bot_blockers ignore_codes r),
   results.filter
      (fun r => r.is_broken && isFalsePositive bot_blockers ignore_codes r))

theorem filterLoop_eq_filters (bb : List String) (ic : List ℕ) :
    ∀ results : List ProbeResult,
      filterLoop bb ic results =
        (results.filter (fun r => r.is_broken && !isFalsePositive bb ic r),
         results.filter (fun r => r.is_broken && isFalsePositive bb ic r)) := by
  intro results
  induction results with
  | nil => rfl
  | cons r rest ih =>
    rw [filterLoop, ih]
    cases hb : r.is_broken with
    | false => simp [List.filter_cons, hb]
    | true =>
      cases hfp : isFalsePositive bb ic r with
      | false => simp [List.filter_cons, hb, hfp]
      | true => simp [List.filter_cons, hb, hfp]

/-- Claim C8, refuted as stated: with caller-supplied empty lists, a broken
`linkedin.com` result is still reclassified as a false positive — the empty
lists are falsy in Python's `x or default`, so the built-in defaults are
applied instead of the supplied lists. -/
theorem filter_empty_lists_counterexample :
    filter_false_positives
        [⟨"https://linkedin.com/x", some 404, "Not Found", true, 1, []⟩]
        (some []) (some []) =
      ([], [⟨"https://linkedin.com/x", some 404, "Not Found", true, 1, []⟩]) ∧
    filterWithSuppliedLists [] []
        [⟨"https://linkedin.com/x", some 404, "Not Found", true, 1, []⟩] =
      ([⟨"https://linkedin.com/x", some 404, "Not Found", true, 1, []⟩], []) ∧
    filter_false_positives
        [⟨"https://linkedin.com/x", some 404, "Not Found", true, 1, []⟩]
        (some []) (some []) ≠
      filterWithSuppliedLists [] []
        [⟨"https://linkedin.com/x", some 404, "Not Found", true, 1, []⟩] := by
  refine ⟨by decide, by decide, by decide⟩

/-- Claim C8, amended: when the caller passes non-empty lists,
`filter_false_positives` classifies with exactly the supplied lists and no
built-in defaults; an absent (`None`) or empty list falls back to the
built-in defaults via Python's `or`. -/
theorem filter_uses_supplied_nonempty_lists (results : List ProbeResult)
    (bb : List String) (ic : List ℕ) (hbb : bb ≠ []) (hic : ic ≠ []) :
    filter_false_positives results (some bb) (some ic) =
      filterWithSuppliedLists bb ic results := by
  have h1 : orDefault (some bb) defaultBotBlockerDomains = bb := by
    simp only [orDefault]
    rw [if_neg]
    simp [hbb]
  have h2 : orDefault (some ic) defaultIgnoreStatusCodes = ic := by
    simp only [orDefault]
    rw [if_neg]
    simp [hic]
  rw [filter_false_positives, h1, h2, filterLoop_eq_filters]
  rfl

/-- Witness for `filter_uses_supplied_nonempty_lists` with supplied lists
`["example.com"]` and `[404]`. -/
theorem filter_uses_supplied_nonempty_lists_witness :
    ((["example.com"] : List String) ≠ [] ∧ ([404] : List ℕ) ≠ []) ∧
    filter_false_positives
        [⟨"https://linkedin.com/x", some 404, "Not Found", true, 1, []⟩]
        (some ["example.com"]) (some [404]) =
      filterWithSuppliedLists ["example.com"] [404]
        [⟨"https://linkedin.com/x", some 404, "Not Found", true, 1, []⟩] :=
  ⟨⟨by decide, by decide⟩,
    filter_uses_supplied_nonempty_lists _ ["example.com"] [404]
      (by decide) (by decide)⟩

/-- Claim C10: every broken input result lands in exactly one of the two
output lists of `filter_false_positives`, and every non-broken input result
appears in neither. -/
theorem filter_partitions_broken (results : List ProbeResult)
    (bbOpt : Option (List String)) (icOpt : Option (List ℕ))
    (r : ProbeResult) (hr : r ∈ results) :
    (r.is_broken = true →
      (r ∈ (filter_false_positives results bbOpt icOpt).1 ∧
        r ∉ (filter_false_positives results bbOpt icOpt).2) ∨
      (r ∈ (filter_false_positives results bbOpt icOpt).2 ∧
        r ∉ (filter_false_positives results bbOpt icOpt).1)) ∧
    (r.is_broken = false →
      r ∉ (filter_false_positives results bbOpt icOpt).1 ∧
      r ∉ (filter_false_positives results bbOpt icOpt).2) := by
  rw [filter_false_positives, filterLoop_eq_filters]
  constructor
  · intro hb
    cases hfp : isFalsePositive (orDefault bbOpt defaultBotBlockerDomains)
        (orDefault icOpt defaultIgnoreStatusCodes) r with
    | true =>
      right
      constructor
      · exact List.mem_filter.mpr ⟨hr, by simp [hb, hfp]⟩
      · intro hmem
        have := (List.mem_filter.mp hmem).2
        simp [hb, hfp] at this
    | false =>
      left
      constructor
      · exact List.mem_filter.mpr ⟨hr, by simp [hb, hfp]⟩
      · intro hmem
        have := (List.mem_filter.mp hmem).2
        simp [hb, hfp] at this
  · intro hb
    constructor
    · intro hmem
      have := (List.mem_filter.mp hmem).2
      simp [hb] at this
    · intro hmem
      have := (List.mem_filter.mp hmem).2
      simp [hb] at this

/-- Witness for `filter_partitions_broken` at a concrete broken result with
the default lists. -/
theorem filter_partitions_broken_witness :
    ((⟨"https://example.com/x", some 404, "Not Found", true, 1, []⟩ : ProbeResult) ∈
      [(⟨"https://example.com/x", some 404, "Not Found", true, 1, []⟩ : ProbeResult)]) ∧
    (((⟨"https://example.com/x", some 404, "Not Found", true, 1, []⟩ : ProbeResult).is_broken = true →
      ((⟨"https://example.com/x", some 404, "Not Found", true, 1, []⟩ : ProbeResult) ∈
          (filter_false_positives
            [⟨"https://example.com/x", some 404, "Not Found", true, 1, []⟩]
            none none).1 ∧
        (⟨"https://example.com/x", some 404, "Not Found", true, 1, []⟩ : ProbeResult) ∉
          (filter_false_positives
            [⟨"https://example.com/x", some 404, "Not Found", true, 1, []⟩]
            none none).2) ∨
      ((⟨"https://example.com/x", some 404, "Not Found", true, 1, []⟩ : ProbeResult) ∈
          (filter_false_positives
            [⟨"https://example.com/x", some 404, "Not Found", true, 1, []⟩]
            none none).2 ∧
        (⟨"https://example.com/x", some 404, "Not Found", true, 1, []⟩ : ProbeResult) ∉
          (filter_false_positives
            [⟨"https://example.com/x", some 404, "Not Found", true, 1, []⟩]
            none none).1)) ∧
    ((⟨"https://example.com/x", some 404, "Not Found", true, 1, []⟩ : ProbeResult).is_broken = false →
      (⟨"https://example.com/x", some 404, "Not Found", true, 1, []⟩ : ProbeResult) ∉
        (filter_false_positives
          [⟨"https://example.com/x", some 404, "Not Found", true, 1, []⟩]
          none none).1 ∧
      (⟨"https://example.com/x", some 404, "Not Found", true, 1, []⟩ : ProbeResult) ∉
        (filter_false_positives
          [⟨"https://example.com/x", some 404, "Not Found", true, 1, []⟩]
          none none).2)) :=
  ⟨List.mem_cons_self _ _,
    filter_partitions_broken
      [⟨"https://example.com/x", some 404, "Not Found", true, 1, []⟩]
      none none
      ⟨"https://example.com/x", some 404, "Not Found", true, 1, []⟩
      (List.mem_cons_self _ _)⟩

end LinkAnalyzer
